import Mathlib

/-!
Shallow embedding of the data-aggregation and classification engine of the
GeoTaggerAR repository, and proofs of the specified properties.

Two pipelines are modelled:
  * the satellite-indicator analyzer of
    src/components/SatelliteDataIndicators.tsx
    (generateHistoricalData, getIndicatorStatus, calculateTrend, and the
    per-indicator status update performed by the component body);
  * the forecast aggregator of src/components/WeatherForecast.tsx
    (the grouping/aggregation body of fetchForecast).

Numbers are modelled as exact rationals.  Where the JavaScript semantics of
the source departs from exact arithmetic in a way the properties depend on
(division producing NaN or signed infinities in calculateTrend), the result
of the division pipeline is modelled by the type JVal below, which carries
the IEEE special values NaN, +Infinity and -Infinity explicitly and gives
the JavaScript answers for the comparisons the source performs on them.
-/

namespace GeoTagger

/-- Trend direction, the "up" | "down" | "stable" union of the source. -/
inductive Trend where
  | up
  | down
  | stable
deriving DecidableEq, Repr

/-- Indicator status, the "good" | "warning" | "poor" union of the source. -/
inductive Status where
  | good
  | warning
  | poor
deriving DecidableEq, Repr

/-- A history sample, mirroring interface DataPoint of
SatelliteDataIndicators.tsx: the date (modelled as an integer day number)
and the value. -/
structure DataPoint where
  date : ℤ
  value : ℚ
deriving DecidableEq, Repr

/-- A JavaScript number as it flows through calculateTrend: either a real
(rational) value or one of the IEEE special values produced by dividing by
zero.  Only the operations calculateTrend performs are modelled. -/
inductive JVal where
  | num (q : ℚ)
  | nan
  | pinf
  | ninf
deriving DecidableEq, Repr

namespace JVal

/-- JavaScript subtraction restricted to the shapes reachable in
calculateTrend: any operation with NaN gives NaN; a finite minus an
infinity gives the opposite infinity. -/
def sub : JVal → JVal → JVal
  | num a, num b => num (a - b)
  | num _, pinf => ninf
  | num _, ninf => pinf
  | pinf, num _ => pinf
  | ninf, num _ => ninf
  | pinf, ninf => pinf
  | ninf, pinf => ninf
  | pinf, pinf => nan
  | ninf, ninf => nan
  | nan, _ => nan
  | _, nan => nan

/-- JavaScript division.  Dividing a nonzero finite number by zero gives a
signed infinity, 0/0 gives NaN, and NaN propagates. -/
def div : JVal → JVal → JVal
  | num a, num b =>
      if b ≠ 0 then num (a / b)
      else if a > 0 then pinf
      else if a < 0 then ninf
      else nan
  | num _, pinf => num 0
  | num _, ninf => num 0
  | pinf, num b => if b < 0 then ninf else pinf
  | ninf, num b => if b < 0 then pinf else ninf
  | pinf, pinf => nan
  | pinf, ninf => nan
  | ninf, pinf => nan
  | ninf, ninf => nan
  | nan, _ => nan
  | _, nan => nan

/-- JavaScript multiplication by a positive finite constant (the `* 100` of
calculateTrend). -/
def mulPos (c : ℚ) : JVal → JVal
  | num a => num (a * c)
  | pinf => pinf
  | ninf => ninf
  | nan => nan

/-- JavaScript Math.abs. -/
def jabs : JVal → JVal
  | num a => num |a|
  | pinf => pinf
  | ninf => pinf
  | nan => nan

/-- JavaScript `x < c` for a finite constant c: false when x is NaN. -/
def ltConst (c : ℚ) : JVal → Bool
  | num a => a < c
  | ninf => true
  | pinf => false
  | nan => false

/-- JavaScript `x > c` for a finite constant c: false when x is NaN. -/
def gtConst (c : ℚ) : JVal → Bool
  | num a => a > c
  | ninf => false
  | pinf => true
  | nan => false

/-- A JVal is non-negative in the JavaScript sense (`x >= 0` holds): false
for NaN and -Infinity. -/
def nonneg : JVal → Prop
  | num a => 0 ≤ a
  | pinf => True
  | ninf => False
  | nan => False

instance : DecidablePred nonneg := by
  intro v
  cases v <;> simp [nonneg] <;> infer_instance

end JVal

/-- getIndicatorStatus of SatelliteDataIndicators.tsx, lines 57-75:
threshold classification of a current value by indicator name. -/
def getIndicatorStatus (name : String) (value : ℚ) : Status :=
  if name = "NDVI" then
    if value ≥ 0.6 then .good
    else if value ≥ 0.4 then .warning
    else .poor
  else if name = "Soil Moisture" then
    if value ≥ 30 ∧ value ≤ 50 then .good
    else if value ≥ 20 ∧ value ≤ 60 then .warning
    else .poor
  else if name = "Temperature" then
    if value ≥ 15 ∧ value ≤ 25 then .good
    else if value ≥ 10 ∧ value ≤ 30 then .warning
    else .poor
  else .good

/-- The recent window of calculateTrend: `history.slice(-3)`, the last
(up to) three samples. -/
def recentOf (history : List DataPoint) : List DataPoint :=
  history.drop (history.length - 3)

/-- The older window of calculateTrend: `history.slice(-6, -3)`, the up to
three samples preceding the recent window. -/
def olderOf (history : List DataPoint) : List DataPoint :=
  (history.take (history.length - 3)).drop (history.length - 6)

/-- The mean used by calculateTrend: reduce(+, 0) over the values divided
by the length.  On the empty list JavaScript computes 0/0 = NaN; the
caller wraps this in JVal accordingly. -/
def avgValues (l : List DataPoint) : ℚ :=
  (l.map DataPoint.value).sum / l.length

/-- The olderAvg of calculateTrend as the JavaScript value it really is:
NaN when the older window is empty. -/
def olderAvgJ (history : List DataPoint) : JVal :=
  if olderOf history = [] then .nan
  else .num (avgValues (olderOf history))

/-- The percent change computed by calculateTrend, line 86:
`((recentAvg - olderAvg) / olderAvg) * 100`, with JavaScript special-value
semantics. -/
def percentChange (history : List DataPoint) : JVal :=
  ((JVal.num (avgValues (recentOf history))).sub (olderAvgJ history)).div
    (olderAvgJ history) |>.mulPos 100

/-- calculateTrend of SatelliteDataIndicators.tsx, lines 77-90. -/
def calculateTrend (history : List DataPoint) : Trend × JVal :=
  if history.length < 2 then (.stable, .num 0)
  else
    let change := percentChange history
    if (change.jabs).ltConst 2 then (.stable, .num 0)
    else (if change.gtConst 0 then .up else .down, change.jabs)

/-- Rounding to 2 decimal places, `parseFloat(value.toFixed(2))`.  toFixed
rounds half away from zero; the source only applies it to non-negative
values, where this agrees with rounding half up, i.e. ⌊100q + 1/2⌋/100. -/
def round2 (q : ℚ) : ℚ := ((round (100 * q) : ℤ) : ℚ) / 100

/-- Rounding to 1 decimal place, `parseFloat(x.toFixed(1))`, likewise for
non-negative inputs. -/
def round1 (q : ℚ) : ℚ := ((round (10 * q) : ℤ) : ℚ) / 10

/-- generateHistoricalData of SatelliteDataIndicators.tsx, lines 34-55.
The loop runs i = days-1 down to 0; iteration j (j = 0 .. days-1) has
i = days-1-j, produces date today - i (dates are modelled as integer day
numbers, one per calendar day) and one fresh Math.random() draw, modelled
by rnd j ∈ [0,1). -/
def generateHistoricalData (baseValue : ℚ) (days : ℕ) (variance : ℚ)
    (rnd : ℕ → ℚ) (today : ℤ) : List DataPoint :=
  (List.range days).map (fun (j : ℕ) =>
    { date := today - ((days : ℤ) - 1 - (j : ℤ)),
      value := round2 (max 0 (baseValue + (rnd j - 1/2) * variance)) })

/-- The JavaScript % operator on a non-negative dividend and positive
divisor (the only use in the source: seed % 20, seed % 10 with
seed = |sin(lat*lon)|*1000 ≥ 0), where it agrees with the floor-based
remainder x - y⌊x/y⌋. -/
def jsMod (x y : ℚ) : ℚ := x - y * ⌊x / y⌋

/-- The NDVI baseline of SatelliteDataIndicators.tsx, line 97. -/
def ndviBase (seed : ℚ) : ℚ := 0.55 + jsMod seed 20 / 100

/-- The Soil Moisture baseline of SatelliteDataIndicators.tsx, line 98. -/
def moistureBase (seed : ℚ) : ℚ := 30 + jsMod seed 20

/-- The Temperature baseline of SatelliteDataIndicators.tsx, line 99. -/
def tempBase (seed : ℚ) : ℚ := 18 + jsMod seed 10

/-- Interface IndicatorData of SatelliteDataIndicators.tsx. -/
structure IndicatorData where
  name : String
  current : ℚ
  unit : String
  trend : Trend
  change : JVal
  history : List DataPoint
  status : Status

/-- The per-indicator update performed by the component body
(SatelliteDataIndicators.tsx, lines 134-139): trend and change from the
history, status from the name and the current value. -/
def updateIndicator (ind : IndicatorData) : IndicatorData :=
  { ind with
    trend := (calculateTrend ind.history).1,
    change := (calculateTrend ind.history).2,
    status := getIndicatorStatus ind.name ind.current }

/-- One raw 3-hourly forecast entry as consumed by fetchForecast of
WeatherForecast.tsx: unix timestamp (seconds), main.temp, wind.speed,
main.humidity, the optional rain["3h"] amount, and the first weather
descriptor's main label, description and icon code. -/
structure RawItem where
  dt : ℕ
  temp : ℚ
  windSpeed : ℚ
  humidity : ℚ
  rain3h : Option ℚ
  wmain : String
  wdesc : String
  wicon : String
deriving DecidableEq, Repr

/-- The calendar-day bucket of a raw item,
`format(new Date(item.dt * 1000), "yyyy-MM-dd")`, modelled as the day
number dt / 86400: two timestamps get the same key exactly when they fall
on the same calendar day, and the key is monotone in the timestamp. -/
def dayKey (it : RawItem) : ℕ := it.dt / 86400

/-- First-seen deduplication: the insertion order of the string keys of a
JavaScript object (`Object.keys`), i.e. the distinct elements of the list
in order of first occurrence. -/
def firstSeen {α : Type} [DecidableEq α] : List α → List α
  | [] => []
  | a :: l => a :: firstSeen (l.filter (· ≠ a))
termination_by l => l.length
decreasing_by
  exact Nat.lt_succ_of_le (List.length_filter_le _ _)

/-- The reduce of WeatherForecast.tsx, lines 82-84:
`keys.reduce((a, b) => counts[a] > counts[b] ? a : b)` starting from the
first key. -/
def pickDominant (cnt : String → ℕ) (k : String) (ks : List String) : String :=
  ks.foldl (fun a b => if cnt a > cnt b then a else b) k

/-- The dominant weather condition of a day group (WeatherForecast.tsx,
lines 77-84): tally the labels into an object (keys in first-seen order,
values the occurrence counts) and reduce over the keys.  On an empty group
JavaScript's reduce of an empty array would throw; groups are never
empty. -/
def mainWeatherOf (labels : List String) : Option String :=
  match firstSeen labels with
  | [] => none
  | k :: ks => some (pickDominant (fun a => labels.count a) k ks)

/-- One aggregated day, interface ForecastDay of WeatherForecast.tsx
(the date again as an integer day number). -/
structure ForecastDay where
  date : ℕ
  tempMin : ℚ
  tempMax : ℚ
  wmain : String
  wdesc : String
  precipitation : ℚ
  wind : ℚ
  humidity : ℚ
  icon : String
deriving DecidableEq, Repr

/-- The per-day aggregation of WeatherForecast.tsx, lines 70-103, for the
group of samples of one date key: Math.min/Math.max over the spread
temperatures (left-to-right pairwise min/max starting from the first),
reduce(+, 0) for rain with a missing rain["3h"] defaulting to 0, mean wind
and humidity, dominant condition, and description/icon from the sample at
index ⌊n/2⌋.  A day group is never empty (it was created by pushing its
first sample); the empty case is unreachable and filled with defaults. -/
def aggregateDay (k : ℕ) (g : List RawItem) : ForecastDay :=
  match g with
  | [] =>
      { date := k, tempMin := 0, tempMax := 0, wmain := "", wdesc := "",
        precipitation := 0, wind := 0, humidity := 0, icon := "" }
  | a :: t =>
      { date := k,
        tempMin := (t.map RawItem.temp).foldl min a.temp,
        tempMax := (t.map RawItem.temp).foldl max a.temp,
        wmain := (mainWeatherOf ((a :: t).map RawItem.wmain)).getD "",
        wdesc := (((a :: t).get? ((a :: t).length / 2)).map RawItem.wdesc).getD "",
        precipitation := ((a :: t).map (fun it => it.rain3h.getD 0)).foldl (· + ·) 0,
        wind := ((a :: t).map RawItem.windSpeed).foldl (· + ·) 0 / (a :: t).length,
        humidity := ((a :: t).map RawItem.humidity).foldl (· + ·) 0 / (a :: t).length,
        icon := (((a :: t).get? ((a :: t).length / 2)).map RawItem.wicon).getD "" }

/-- The group of raw items sharing a date key: items are pushed into
dailyData[key] in list order (WeatherForecast.tsx, lines 61-67). -/
def dayGroup (l : List RawItem) (k : ℕ) : List RawItem :=
  l.filter (fun it => dayKey it = k)

/-- The aggregation pipeline of fetchForecast (WeatherForecast.tsx, lines
57-104): group by calendar-day key in first-seen order, take the first 7
entries (`Object.entries(dailyData).slice(0, 7)`) and aggregate each
group. -/
def aggregateForecast (l : List RawItem) : List ForecastDay :=
  ((firstSeen (l.map dayKey)).take 7).map (fun k => aggregateDay k (dayGroup l k))

/-- Eight raw samples on eight consecutive calendar days, a concrete
aggregation input. -/
def eightDaySamples : List RawItem :=
  [⟨0, 1, 1, 50, none, "Clear", "d", "i"⟩,
   ⟨86400, 2, 1, 50, none, "Clear", "d", "i"⟩,
   ⟨172800, 3, 1, 50, none, "Clear", "d", "i"⟩,
   ⟨259200, 4, 1, 50, none, "Clear", "d", "i"⟩,
   ⟨345600, 5, 1, 50, none, "Clear", "d", "i"⟩,
   ⟨432000, 6, 1, 50, none, "Clear", "d", "i"⟩,
   ⟨518400, 7, 1, 50, none, "Clear", "d", "i"⟩,
   ⟨604800, 8, 1, 50, none, "Clear", "d", "i"⟩]

/-- C4: getIndicatorStatus returns exactly the status of the threshold
table: NDVI is good iff value ≥ 0.6, warning iff 0.4 ≤ value < 0.6, poor
iff value < 0.4; Soil Moisture is good iff 30 ≤ value ≤ 50, warning iff
value ∈ [20,30) ∪ (50,60], poor otherwise; Temperature is good iff
15 ≤ value ≤ 25, warning iff value ∈ [10,15) ∪ (25,30], poor otherwise;
any other indicator name yields good. -/
theorem getIndicatorStatus_matches_table (v : ℚ) (name : String)
    (hn : name ≠ "NDVI" ∧ name ≠ "Soil Moisture" ∧ name ≠ "Temperature") :
    ((getIndicatorStatus "NDVI" v = .good ↔ 0.6 ≤ v) ∧
     (getIndicatorStatus "NDVI" v = .warning ↔ 0.4 ≤ v ∧ v < 0.6) ∧
     (getIndicatorStatus "NDVI" v = .poor ↔ v < 0.4)) ∧
    ((getIndicatorStatus "Soil Moisture" v = .good ↔ 30 ≤ v ∧ v ≤ 50) ∧
     (getIndicatorStatus "Soil Moisture" v = .warning ↔
        (20 ≤ v ∧ v < 30) ∨ (50 < v ∧ v ≤ 60)) ∧
     (getIndicatorStatus "Soil Moisture" v = .poor ↔ v < 20 ∨ 60 < v)) ∧
    ((getIndicatorStatus "Temperature" v = .good ↔ 15 ≤ v ∧ v ≤ 25) ∧
     (getIndicatorStatus "Temperature" v = .warning ↔
        (10 ≤ v ∧ v < 15) ∨ (25 < v ∧ v ≤ 30)) ∧
     (getIndicatorStatus "Temperature" v = .poor ↔ v < 10 ∨ 30 < v)) ∧
    getIndicatorStatus name v = .good := by
  obtain ⟨h1, h2, h3⟩ := hn
  refine ⟨⟨?_, ?_, ?_⟩, ⟨?_, ?_, ?_⟩, ⟨?_, ?_, ?_⟩, ?_⟩ <;>
    simp only [getIndicatorStatus, String.reduceEq, reduceIte, ge_iff_le]
  · split_ifs with hA hB <;>
      simp only [reduceCtorEq, false_iff, true_iff] <;> exact hA
  · split_ifs with hA hB <;>
      simp only [reduceCtorEq, false_iff, true_iff]
    · rintro ⟨ha, hb⟩
      linarith
    · exact ⟨hB, not_le.mp hA⟩
    · rintro ⟨ha, _⟩
      exact hB ha
  · split_ifs with hA hB <;>
      simp only [reduceCtorEq, false_iff, true_iff]
    · intro hp
      linarith
    · intro hp
      linarith
    · exact not_le.mp hB
  · split_ifs with hA hB <;>
      simp only [reduceCtorEq, false_iff, true_iff] <;> exact hA
  · split_ifs with hA hB <;>
      simp only [reduceCtorEq, false_iff, true_iff]
    · rintro (⟨ha, hb⟩ | ⟨ha, hb⟩) <;> linarith [hA.1, hA.2]
    · obtain ⟨hx, hy⟩ := hB
      by_cases h30 : v < 30
      · exact Or.inl ⟨hx, h30⟩
      · refine Or.inr ⟨?_, hy⟩
        by_contra hle
        push_neg at hle
        exact hA ⟨by linarith, hle⟩
    · rintro (⟨ha, hb⟩ | ⟨ha, hb⟩) <;> exact hB ⟨by linarith, by linarith⟩
  · split_ifs with hA hB <;>
      simp only [reduceCtorEq, false_iff, true_iff]
    · rintro (hp | hp) <;> linarith [hA.1, hA.2]
    · rintro (hp | hp) <;> linarith [hB.1, hB.2]
    · by_cases h20 : 20 ≤ v
      · refine Or.inr ?_
        by_contra h60
        push_neg at h60
        exact hB ⟨h20, h60⟩
      · exact Or.inl (not_le.mp h20)
  · split_ifs with hA hB <;>
      simp only [reduceCtorEq, false_iff, true_iff] <;> exact hA
  · split_ifs with hA hB <;>
      simp only [reduceCtorEq, false_iff, true_iff]
    · rintro (⟨ha, hb⟩ | ⟨ha, hb⟩) <;> linarith [hA.1, hA.2]
    · obtain ⟨hx, hy⟩ := hB
      by_cases h15 : v < 15
      · exact Or.inl ⟨hx, h15⟩
      · refine Or.inr ⟨?_, hy⟩
        by_contra hle
        push_neg at hle
        exact hA ⟨by linarith, hle⟩
    · rintro (⟨ha, hb⟩ | ⟨ha, hb⟩) <;> exact hB ⟨by linarith, by linarith⟩
  · split_ifs with hA hB <;>
      simp only [reduceCtorEq, false_iff, true_iff]
    · rintro (hp | hp) <;> linarith [hA.1, hA.2]
    · rintro (hp | hp) <;> linarith [hB.1, hB.2]
    · by_cases h10 : 10 ≤ v
      · refine Or.inr ?_
        by_contra h30
        push_neg at h30
        exact hB ⟨h10, h30⟩
      · exact Or.inl (not_le.mp h10)
  · simp [getIndicatorStatus, h1, h2, h3]

/-- Witness for C4 at value 45 and the unknown indicator name "Albedo". -/
theorem getIndicatorStatus_matches_table_w :
    (("Albedo" : String) ≠ "NDVI" ∧ ("Albedo" : String) ≠ "Soil Moisture" ∧
      ("Albedo" : String) ≠ "Temperature") ∧
    getIndicatorStatus "Albedo" 45 = .good :=
  ⟨by decide, (getIndicatorStatus_matches_table 45 "Albedo" (by decide)).2.2.2⟩

/-- C6: the status produced by the component update step depends only on
the indicator's name and current value, never on its history: two
indicators agreeing on name and current value get the same status. -/
theorem updateIndicator_status_ignores_history (a b : IndicatorData)
    (hname : a.name = b.name) (hcur : a.current = b.current) :
    (updateIndicator a).status = (updateIndicator b).status := by
  simp [updateIndicator, hname, hcur]

/-- Witness for C6: same name and current value, different histories. -/
theorem updateIndicator_status_ignores_history_w :
    (updateIndicator
      { name := "NDVI", current := 0.7, unit := "", trend := .stable,
        change := .num 0, history := [⟨0, 1⟩], status := .good }).status =
    (updateIndicator
      { name := "NDVI", current := 0.7, unit := "", trend := .stable,
        change := .num 0, history := [⟨0, 2⟩, ⟨1, 9⟩],
        status := .poor }).status :=
  updateIndicator_status_ignores_history _ _ rfl rfl

/-- C1 (divergence witness): on the two-point history [1, 2] the older
window is empty, olderAvg is NaN, and calculateTrend returns direction
down with magnitude NaN - not the Stable, 0 the specification mandates for
an empty older window: the division-by-zero guard is absent from the
code. -/
theorem calculateTrend_missing_zero_guard :
    olderOf [⟨0, 1⟩, ⟨1, 2⟩] = [] ∧
    calculateTrend [⟨0, 1⟩, ⟨1, 2⟩] = (Trend.down, JVal.nan) := by
  constructor
  · rfl
  · decide

/-- C7 (counterexample): on the three-point history [5, 5, 5] the older
window is empty, so the percent change is NaN; calculateTrend returns
direction down with magnitude NaN, which is not non-negative in the
JavaScript sense, refuting the invariant as stated for arbitrary
histories. -/
theorem calculateTrend_invariants_cex :
    ¬ ((calculateTrend [⟨0, 5⟩, ⟨1, 5⟩, ⟨2, 5⟩]).2.nonneg ∧
       ((calculateTrend [⟨0, 5⟩, ⟨1, 5⟩, ⟨2, 5⟩]).2 = JVal.num 0 ↔
        (calculateTrend [⟨0, 5⟩, ⟨1, 5⟩, ⟨2, 5⟩]).1 = Trend.stable)) := by
  decide

/-- C7 (amended): for every history whose older window (slice [-6,-3)) is
non-empty and has non-zero mean, the trend magnitude is non-negative, the
magnitude is 0 exactly when the direction is Stable, and the direction is
Stable whenever |percentChange| < 2. -/
theorem calculateTrend_invariants (h : List DataPoint)
    (hne : olderOf h ≠ []) (hoa : avgValues (olderOf h) ≠ 0) :
    (calculateTrend h).2.nonneg ∧
    ((calculateTrend h).2 = JVal.num 0 ↔ (calculateTrend h).1 = Trend.stable) ∧
    ((percentChange h).jabs.ltConst 2 = true → (calculateTrend h).1 = Trend.stable) := by
  have hlen : ¬ h.length < 2 := by
    intro hl
    apply hne
    unfold olderOf
    have h3 : h.length - 3 = 0 := by omega
    rw [h3]
    simp
  have hOAJ : olderAvgJ h = JVal.num (avgValues (olderOf h)) := by
    unfold olderAvgJ
    rw [if_neg hne]
  have hchange : percentChange h =
      JVal.num ((avgValues (recentOf h) - avgValues (olderOf h)) /
        avgValues (olderOf h) * 100) := by
    unfold percentChange
    rw [hOAJ]
    simp [JVal.sub, JVal.div, JVal.mulPos, hoa]
  set c : ℚ := (avgValues (recentOf h) - avgValues (olderOf h)) /
      avgValues (olderOf h) * 100 with hc
  unfold calculateTrend
  rw [if_neg hlen]
  simp only [hchange, JVal.jabs, JVal.ltConst, decide_eq_true_eq]
  by_cases habs : |c| < 2
  · rw [if_pos habs]
    simp [JVal.nonneg]
  · rw [if_neg habs]
    refine ⟨abs_nonneg c, ?_, ?_⟩
    · constructor
      · intro h0
        exfalso
        have : |c| = 0 := by simpa using h0
        rw [this] at habs
        exact habs (by norm_num)
      · intro hst
        exfalso
        by_cases hgt : (JVal.num c).gtConst 0 = true <;> simp [hgt] at hst
    · intro hlt
      exact absurd hlt habs

/-- The floor-based remainder is the scaled fractional part. -/
lemma jsMod_eq_fract (x y : ℚ) (hy : y ≠ 0) :
    jsMod x y = y * Int.fract (x / y) := by
  unfold jsMod Int.fract
  field_simp

/-- The floor-based remainder of a positive divisor is non-negative. -/
lemma jsMod_nonneg (x y : ℚ) (hy : 0 < y) : 0 ≤ jsMod x y := by
  rw [jsMod_eq_fract x y hy.ne']
  exact mul_nonneg hy.le (Int.fract_nonneg _)

/-- The floor-based remainder is below the (positive) divisor. -/
lemma jsMod_lt (x y : ℚ) (hy : 0 < y) : jsMod x y < y := by
  rw [jsMod_eq_fract x y hy.ne']
  have h := Int.fract_lt_one (x / y)
  nlinarith

/-- Rounding to one decimal keeps a value of [30, 50) inside [30, 50]. -/
lemma round1_mem_Icc (b : ℚ) (h1 : 30 ≤ b) (h2 : b < 50) :
    30 ≤ round1 b ∧ round1 b ≤ 50 := by
  unfold round1
  have hlo : (300 : ℤ) ≤ round (10 * b) := by
    rw [round_eq]
    exact Int.le_floor.mpr (by push_cast; linarith)
  have hhi : round (10 * b) ≤ 500 := by
    rw [round_eq]
    have : ⌊10 * b + 1 / 2⌋ < 501 := Int.floor_lt.mpr (by push_cast; linarith)
    omega
  constructor
  · have : (300 : ℚ) ≤ ((round (10 * b) : ℤ) : ℚ) := by exact_mod_cast hlo
    linarith
  · have : ((round (10 * b) : ℤ) : ℚ) ≤ 500 := by exact_mod_cast hhi
    linarith

/-- Rounding to two decimals preserves non-negativity. -/
lemma round2_nonneg (q : ℚ) (hq : 0 ≤ q) : 0 ≤ round2 q := by
  unfold round2
  have h0 : (0 : ℤ) ≤ round (100 * q) := by
    rw [round_eq]
    exact Int.le_floor.mpr (by push_cast; linarith)
  have : (0 : ℚ) ≤ ((round (100 * q) : ℤ) : ℚ) := by exact_mod_cast h0
  linarith

/-- C10: for every non-negative seed (and seed = |sin(lat·lon)|·1000 is
always non-negative), the Soil Moisture baseline 30 + (seed % 20) lies in
[30, 50), its rounding to 1 decimal place stays in [30, 50], and
getIndicatorStatus classifies the rounded current value as good - the
Soil Moisture card can never show warning or poor. -/
theorem soilMoisture_status_always_good (seed : ℚ) (hs : 0 ≤ seed) :
    30 ≤ moistureBase seed ∧ moistureBase seed < 50 ∧
    30 ≤ round1 (moistureBase seed) ∧ round1 (moistureBase seed) ≤ 50 ∧
    getIndicatorStatus "Soil Moisture" (round1 (moistureBase seed)) = .good := by
  have hm0 : 0 ≤ jsMod seed 20 := jsMod_nonneg seed 20 (by norm_num)
  have hm1 : jsMod seed 20 < 20 := jsMod_lt seed 20 (by norm_num)
  have hb1 : 30 ≤ moistureBase seed := by unfold moistureBase; linarith
  have hb2 : moistureBase seed < 50 := by unfold moistureBase; linarith
  have hr := round1_mem_Icc _ hb1 hb2
  refine ⟨hb1, hb2, hr.1, hr.2, ?_⟩
  simp only [getIndicatorStatus, String.reduceEq, reduceIte, ge_iff_le]
  rw [if_pos ⟨hr.1, hr.2⟩]

/-- Witness for C10 at seed 0. -/
theorem soilMoisture_status_always_good_w :
    (0 : ℚ) ≤ 0 ∧
    getIndicatorStatus "Soil Moisture" (round1 (moistureBase 0)) = .good :=
  ⟨le_refl 0, (soilMoisture_status_always_good 0 (le_refl 0)).2.2.2.2⟩

/-- A map of the successor translation over List.range is a chain of
+1 steps. -/
lemma chain_succ_map_range (n : ℕ) :
    ∀ c : ℤ, ((List.range n).map (fun (j : ℕ) => c + (j : ℤ))).Chain'
      (fun a b => b = a + 1) := by
  induction n with
  | zero => intro c; simp
  | succ m ih =>
      intro c
      have hmap : (List.range (m + 1)).map (fun (j : ℕ) => c + (j : ℤ)) =
          c :: (List.range m).map (fun (j : ℕ) => (c + 1) + (j : ℤ)) := by
        rw [List.range_succ_eq_map, List.map_cons, List.map_map]
        simp only [List.cons.injEq]
        refine ⟨by norm_num, List.map_congr_left ?_⟩
        intro j hj
        simp only [Function.comp_apply]
        push_cast
        ring
      rw [hmap]
      refine List.Chain'.cons' (ih (c + 1)) ?_
      intro y hy
      cases m with
      | zero => simp at hy
      | succ k =>
          rw [List.range_succ_eq_map] at hy
          simp at hy
          omega

/-- The last element of a map over List.range. -/
lemma getLast_map_range {α : Type} (f : ℕ → α) (m : ℕ) :
    ((List.range (m + 1)).map f).getLast? = some (f m) := by
  rw [List.range_succ, List.map_append]
  simp

/-- C5: for every days ∈ {7,10,14,30}, baseline, non-negative variance and
random stream with draws in [0,1), the generated history has exactly days
samples, the dates increase by exactly one calendar day and end today, and
every value is non-negative and equals max(0, baseline + u) rounded to two
decimals for some u ∈ [-variance/2, variance/2]. -/
theorem generateHistoricalData_spec (baseValue : ℚ) (days : ℕ) (variance : ℚ)
    (rnd : ℕ → ℚ) (today : ℤ)
    (hdays : days = 7 ∨ days = 10 ∨ days = 14 ∨ days = 30)
    (hvar : 0 ≤ variance)
    (hrnd : ∀ j : ℕ, 0 ≤ rnd j ∧ rnd j < 1) :
    (generateHistoricalData baseValue days variance rnd today).length = days ∧
    ((generateHistoricalData baseValue days variance rnd today).map
        DataPoint.date).Chain' (fun a b => b = a + 1) ∧
    ((generateHistoricalData baseValue days variance rnd today).map
        DataPoint.date).getLast? = some today ∧
    ∀ p ∈ generateHistoricalData baseValue days variance rnd today,
      0 ≤ p.value ∧
      ∃ u : ℚ, -(variance / 2) ≤ u ∧ u ≤ variance / 2 ∧
        p.value = round2 (max 0 (baseValue + u)) := by
  have hpos : 1 ≤ days := by rcases hdays with h | h | h | h <;> omega
  obtain ⟨m, rfl⟩ : ∃ m, days = m + 1 := ⟨days - 1, by omega⟩
  have hmap : (generateHistoricalData baseValue (m + 1) variance rnd today).map
      DataPoint.date =
      (List.range (m + 1)).map (fun (j : ℕ) => (today - (m : ℤ)) + (j : ℤ)) := by
    unfold generateHistoricalData
    rw [List.map_map]
    refine List.map_congr_left ?_
    intro j hj
    simp only [Function.comp_apply]
    push_cast
    ring
  refine ⟨by simp [generateHistoricalData], ?_, ?_, ?_⟩
  · rw [hmap]
    exact chain_succ_map_range (m + 1) (today - (m : ℤ))
  · rw [hmap, getLast_map_range]
    congr 1
    omega
  · intro p hp
    unfold generateHistoricalData at hp
    simp only [List.mem_map, List.mem_range] at hp
    obtain ⟨j, hj, rfl⟩ := hp
    constructor
    · exact round2_nonneg _ (le_max_left 0 _)
    · refine ⟨(rnd j - 1 / 2) * variance, ?_, ?_, rfl⟩
      · have h1 := (hrnd j).1
        nlinarith
      · have h2 := (hrnd j).2
        nlinarith

/-- Witness for C5 with a 7-day window, unit variance and the constant
random stream 1/2. -/
theorem generateHistoricalData_spec_w :
    ((7 : ℕ) = 7 ∨ (7 : ℕ) = 10 ∨ (7 : ℕ) = 14 ∨ (7 : ℕ) = 30) ∧
    (0 : ℚ) ≤ 1 ∧
    (generateHistoricalData 1 7 1 (fun _ => 1 / 2) 0).length = 7 :=
  ⟨Or.inl rfl, by norm_num,
    (generateHistoricalData_spec 1 7 1 (fun _ => 1 / 2) 0 (Or.inl rfl)
      (by norm_num) (fun j => by norm_num)).1⟩

/-- Witness for C7 (amended) on a six-point constant history, where the
older window is [1, 1, 1] with mean 1. -/
theorem calculateTrend_invariants_w :
    (olderOf [⟨0, 1⟩, ⟨1, 1⟩, ⟨2, 1⟩, ⟨3, 1⟩, ⟨4, 1⟩, ⟨5, 1⟩] ≠ [] ∧
     avgValues (olderOf [⟨0, 1⟩, ⟨1, 1⟩, ⟨2, 1⟩, ⟨3, 1⟩, ⟨4, 1⟩, ⟨5, 1⟩]) ≠ 0) ∧
    (calculateTrend [⟨0, 1⟩, ⟨1, 1⟩, ⟨2, 1⟩, ⟨3, 1⟩, ⟨4, 1⟩, ⟨5, 1⟩]).2.nonneg :=
  ⟨⟨by decide, by norm_num [avgValues, olderOf]⟩,
    (calculateTrend_invariants _ (by decide) (by norm_num [avgValues, olderOf])).1⟩

/-- Elements of the first-seen deduplication come from the list. -/
lemma mem_of_mem_firstSeen {α : Type} [DecidableEq α] :
    ∀ (l : List α), ∀ x ∈ firstSeen l, x ∈ l := by
  intro l
  induction l using firstSeen.induct with
  | case1 => simp [firstSeen]
  | case2 a l ih =>
      intro x hx
      rw [firstSeen] at hx
      rcases List.mem_cons.mp hx with rfl | hx2
      · exact List.mem_cons_self _ _
      · exact List.mem_cons_of_mem _ (List.mem_filter.mp (ih x hx2)).1

/-- Every element of the list appears in its first-seen deduplication. -/
lemma mem_firstSeen_of_mem {α : Type} [DecidableEq α] :
    ∀ (l : List α), ∀ x ∈ l, x ∈ firstSeen l := by
  intro l
  induction l using firstSeen.induct with
  | case1 => simp
  | case2 a l ih =>
      intro x hx
      rw [firstSeen]
      rcases List.mem_cons.mp hx with rfl | hx2
      · exact List.mem_cons_self _ _
      · by_cases hxa : x = a
        · subst hxa
          exact List.mem_cons_self _ _
        · refine List.mem_cons_of_mem _ (ih x ?_)
          exact List.mem_filter.mpr ⟨hx2, by simp [hxa]⟩

/-- On a list sorted non-decreasingly, first-seen deduplication is
strictly increasing. -/
lemma firstSeen_pairwise_lt {α : Type} [LinearOrder α] [DecidableEq α] :
    ∀ (l : List α), l.Pairwise (· ≤ ·) → (firstSeen l).Pairwise (· < ·) := by
  intro l
  induction l using firstSeen.induct with
  | case1 => intro _; simp [firstSeen]
  | case2 a l ih =>
      intro hl
      rw [firstSeen]
      rcases List.pairwise_cons.mp hl with ⟨ha, hl2⟩
      refine List.pairwise_cons.mpr ⟨?_, ih (hl2.filter _)⟩
      intro b hb
      have hbf := mem_of_mem_firstSeen _ b hb
      rcases List.mem_filter.mp hbf with ⟨hbl, hbne⟩
      have hab : a ≤ b := ha b hbl
      have hne : b ≠ a := by simpa using hbne
      exact lt_of_le_of_ne hab (Ne.symm hne)

/-- The date of an aggregated day is its date key. -/
lemma aggregateDay_date (k : ℕ) (g : List RawItem) :
    (aggregateDay k g).date = k := by
  cases g <;> rfl

/-- The dates of the aggregation output are the first seven distinct day
keys in first-seen order. -/
lemma aggregateForecast_dates (l : List RawItem) :
    (aggregateForecast l).map ForecastDay.date =
      (firstSeen (l.map dayKey)).take 7 := by
  unfold aggregateForecast
  rw [List.map_map]
  have hcomp : (ForecastDay.date ∘ fun k => aggregateDay k (dayGroup l k)) = id := by
    funext k
    simp [aggregateDay_date]
  rw [hcomp, List.map_id]

/-- C3 (counterexample): a two-sample input whose samples arrive in
reverse chronological order (day 2 before day 0) yields output dates
[2, 0], which is not ascending - the aggregator emits groups in first-seen
order and never sorts. -/
theorem aggregateForecast_unsorted_cex :
    ¬ (((aggregateForecast
          [⟨172800, 5, 1, 50, none, "Clear", "d", "i"⟩,
           ⟨0, 3, 1, 50, none, "Rain", "d", "i"⟩]).map
          ForecastDay.date).Pairwise (· ≤ ·)) := by
  have hdates : (aggregateForecast
      [⟨172800, 5, 1, 50, none, "Clear", "d", "i"⟩,
       ⟨0, 3, 1, 50, none, "Rain", "d", "i"⟩]).map ForecastDay.date = [2, 0] := by
    rw [aggregateForecast_dates]
    norm_num [dayKey, firstSeen]
  rw [hdates]
  decide

/-- C3 (amended): for every input sample list that is ordered by timestamp
(so day keys are non-decreasing), the aggregation output is ordered
strictly ascending by date. -/
theorem aggregateForecast_dates_ascending (l : List RawItem)
    (hl : (l.map RawItem.dt).Pairwise (· ≤ ·)) :
    ((aggregateForecast l).map ForecastDay.date).Pairwise (· < ·) := by
  rw [aggregateForecast_dates]
  have hkeys : (l.map dayKey).Pairwise (· ≤ ·) := by
    have hmm : l.map dayKey = (l.map RawItem.dt).map (fun d => d / 86400) := by
      rw [List.map_map]
      rfl
    rw [hmm]
    exact hl.map _ (fun a b hab => Nat.div_le_div_right hab)
  exact List.Pairwise.sublist (List.take_sublist 7 _)
    (firstSeen_pairwise_lt (l.map dayKey) hkeys)

/-- Witness for C3 (amended) on a chronologically ordered two-day input. -/
theorem aggregateForecast_dates_ascending_w :
    (([⟨0, 3, 1, 50, none, "Rain", "d", "i"⟩,
       ⟨172800, 5, 1, 50, none, "Clear", "d", "i"⟩] :
        List RawItem).map RawItem.dt).Pairwise (· ≤ ·) ∧
    ((aggregateForecast
        [⟨0, 3, 1, 50, none, "Rain", "d", "i"⟩,
         ⟨172800, 5, 1, 50, none, "Clear", "d", "i"⟩]).map
        ForecastDay.date).Pairwise (· < ·) :=
  ⟨by decide, aggregateForecast_dates_ascending _ (by decide)⟩

/-- C8: whenever the input contains at least 8 distinct calendar days, the
aggregation output has exactly 7 entries, and they are the first 7
distinct days in grouping (first-seen insertion) order, truncated without
re-sorting. -/
theorem aggregateForecast_cap_seven (l : List RawItem)
    (h8 : 8 ≤ (firstSeen (l.map dayKey)).length) :
    (aggregateForecast l).length = 7 ∧
    (aggregateForecast l).map ForecastDay.date =
      (firstSeen (l.map dayKey)).take 7 := by
  refine ⟨?_, aggregateForecast_dates l⟩
  unfold aggregateForecast
  rw [List.length_map, List.length_take]
  omega

/-- Witness for C8 on eight samples spanning eight days. -/
theorem aggregateForecast_cap_seven_w :
    8 ≤ (firstSeen (eightDaySamples.map dayKey)).length ∧
    (aggregateForecast eightDaySamples).length = 7 :=
  ⟨by norm_num [eightDaySamples, dayKey, firstSeen],
    (aggregateForecast_cap_seven _
      (by norm_num [eightDaySamples, dayKey, firstSeen])).1⟩

/-- The reduce of lines 82-84 lands on an element of maximal count; when
several keys attain the maximum it lands on the LAST of them in key
order: either it keeps the seed and everything later counts strictly
less, or it lands inside the key list with everything before it counting
at most as much and everything after it counting strictly less. -/
lemma pickDominant_cases (cnt : String → ℕ) :
    ∀ (ks : List String) (k : String),
      (pickDominant cnt k ks = k ∧ ∀ b ∈ ks, cnt b < cnt k) ∨
      (∃ l1 l2, ks = l1 ++ pickDominant cnt k ks :: l2 ∧
        cnt k ≤ cnt (pickDominant cnt k ks) ∧
        (∀ b ∈ l1, cnt b ≤ cnt (pickDominant cnt k ks)) ∧
        (∀ b ∈ l2, cnt b < cnt (pickDominant cnt k ks))) := by
  intro ks
  induction ks with
  | nil =>
      intro k
      exact Or.inl ⟨rfl, by simp⟩
  | cons b ks ih =>
      intro k
      by_cases hkb : cnt b < cnt k
      · have h1 : pickDominant cnt k (b :: ks) = pickDominant cnt k ks := by
          simp only [pickDominant, List.foldl_cons, if_pos hkb]
        rcases ih k with ⟨heq, hlt⟩ | ⟨l1, l2, hsplit, hge, hl1, hl2⟩
        · refine Or.inl ⟨by rw [h1, heq], ?_⟩
          intro x hx
          rcases List.mem_cons.mp hx with rfl | hx2
          · exact hkb
          · exact hlt x hx2
        · rw [h1]
          refine Or.inr ⟨b :: l1, l2,
            by rw [List.cons_append]; exact congrArg (List.cons b) hsplit,
            hge, ?_, hl2⟩
          intro x hx
          rcases List.mem_cons.mp hx with rfl | hx2
          · exact le_trans (le_of_lt hkb) hge
          · exact hl1 x hx2
      · have h1 : pickDominant cnt k (b :: ks) = pickDominant cnt b ks := by
          simp only [pickDominant, List.foldl_cons, if_neg hkb]
        rw [h1]
        rcases ih b with ⟨heq, hlt⟩ | ⟨l1, l2, hsplit, hge, hl1, hl2⟩
        · rw [heq]
          exact Or.inr ⟨[], ks, by simp, not_lt.mp hkb, by simp, hlt⟩
        · refine Or.inr ⟨b :: l1, l2,
            by rw [List.cons_append]; exact congrArg (List.cons b) hsplit,
            le_trans (not_lt.mp hkb) hge, ?_, hl2⟩
          intro x hx
          rcases List.mem_cons.mp hx with rfl | hx2
          · exact hge
          · exact hl1 x hx2

/-- C2 (counterexample): in the tied group ["Rain", "Clear"] both labels
occur once; the code selects "Clear", the LAST label reaching the maximal
count in iteration order, not the first as claimed. -/
theorem mainWeatherOf_tie_cex :
    (["Rain", "Clear"] : List String).count "Rain" =
      (["Rain", "Clear"] : List String).count "Clear" ∧
    mainWeatherOf ["Rain", "Clear"] = some "Clear" ∧
    some ("Clear" : String) ≠ some "Rain" := by
  refine ⟨by decide, ?_, by decide⟩
  rw [mainWeatherOf]
  simp +decide [firstSeen, pickDominant, List.filter_cons, List.filter_nil,
    List.count_cons, List.count_nil]

/-- C2 (amended): for every non-empty day group of labels, the dominant
condition is a label of the group whose occurrence count is maximal among
the group's labels, and when two or more labels share the maximal count
the selected label is the last label reaching the max count in iteration
(first-seen) order: every key after it in the counts object's key order
has strictly smaller count. -/
theorem mainWeatherOf_max_lastTie (g : List String) (hg : g ≠ []) :
    ∃ m, mainWeatherOf g = some m ∧ m ∈ g ∧
      (∀ b ∈ g, g.count b ≤ g.count m) ∧
      ∃ l1 l2, firstSeen g = l1 ++ m :: l2 ∧
        ∀ b ∈ l2, g.count b < g.count m := by
  obtain ⟨a, t, rfl⟩ : ∃ a t, g = a :: t := by
    cases g with
    | nil => simp at hg
    | cons a t => exact ⟨a, t, rfl⟩
  have hfs : firstSeen (a :: t) = a :: firstSeen (t.filter (· ≠ a)) := by
    rw [firstSeen]
  have hmain : mainWeatherOf (a :: t) =
      some (pickDominant (fun s => (a :: t).count s) a
        (firstSeen (t.filter (· ≠ a)))) := by
    rw [mainWeatherOf, hfs]
  rcases pickDominant_cases (fun s => (a :: t).count s)
      (firstSeen (t.filter (· ≠ a))) a with
    ⟨heq, hlt⟩ | ⟨l1, l2, hsplit, hge, hl1, hl2⟩
  · refine ⟨a, by rw [hmain]; exact congrArg some heq, List.mem_cons_self _ _,
      ?_, [], firstSeen (t.filter (· ≠ a)), by rw [hfs]; simp, ?_⟩
    · intro b hb
      have hbfs := mem_firstSeen_of_mem _ b hb
      rw [hfs] at hbfs
      rcases List.mem_cons.mp hbfs with rfl | hb2
      · exact le_refl _
      · exact le_of_lt (hlt b hb2)
    · intro b hb
      exact hlt b hb
  · set m := pickDominant (fun s => (a :: t).count s) a
      (firstSeen (t.filter (· ≠ a))) with hm
    have hmem : m ∈ a :: t := by
      have : m ∈ firstSeen (t.filter (· ≠ a)) := by
        rw [hsplit]
        exact List.mem_append_right _ (List.mem_cons_self _ _)
      have hmf := mem_of_mem_firstSeen _ m this
      exact List.mem_cons_of_mem _ (List.mem_filter.mp hmf).1
    refine ⟨m, hmain, hmem, ?_, a :: l1, l2, ?_, hl2⟩
    · intro b hb
      have hbfs := mem_firstSeen_of_mem _ b hb
      rw [hfs, hsplit] at hbfs
      rcases List.mem_cons.mp hbfs with rfl | hb2
      · exact hge
      · rcases List.mem_append.mp hb2 with hbl1 | hbml2
        · exact hl1 b hbl1
        · rcases List.mem_cons.mp hbml2 with rfl | hbl2
          · exact le_refl _
          · exact le_of_lt (hl2 b hbl2)
    · rw [hfs, hsplit, List.cons_append]

/-- Witness for C2 (amended) on the group ["Rain", "Rain", "Clear"] of the
specification's test property. -/
theorem mainWeatherOf_max_lastTie_w :
    (["Rain", "Rain", "Clear"] : List String) ≠ [] ∧
    ∃ m, mainWeatherOf ["Rain", "Rain", "Clear"] = some m ∧
      m ∈ (["Rain", "Rain", "Clear"] : List String) ∧
      (∀ b ∈ (["Rain", "Rain", "Clear"] : List String),
        (["Rain", "Rain", "Clear"] : List String).count b ≤
          (["Rain", "Rain", "Clear"] : List String).count m) ∧
      ∃ l1 l2, firstSeen (["Rain", "Rain", "Clear"] : List String) =
          l1 ++ m :: l2 ∧
        ∀ b ∈ l2, (["Rain", "Rain", "Clear"] : List String).count b <
          (["Rain", "Rain", "Clear"] : List String).count m :=
  ⟨by decide, mainWeatherOf_max_lastTie _ (by decide)⟩

/-- A left fold of min starting from a seed lands on the seed or a list
element, is at most the seed, and is a lower bound of the list. -/
lemma foldl_min_spec {α : Type} [LinearOrder α] :
    ∀ (l : List α) (s : α),
      (l.foldl min s = s ∨ l.foldl min s ∈ l) ∧
      l.foldl min s ≤ s ∧ ∀ x ∈ l, l.foldl min s ≤ x := by
  intro l
  induction l with
  | nil =>
      intro s
      exact ⟨Or.inl rfl, le_refl s, by simp⟩
  | cons x l ih =>
      intro s
      rw [List.foldl_cons]
      obtain ⟨hmem, hle, hall⟩ := ih (min s x)
      refine ⟨?_, le_trans hle (min_le_left s x), ?_⟩
      · rcases hmem with h | h
        · rcases min_cases s x with ⟨hm, _⟩ | ⟨hm, _⟩
          · exact Or.inl (h.trans hm)
          · exact Or.inr (by rw [h, hm]; exact List.mem_cons_self _ _)
        · exact Or.inr (List.mem_cons_of_mem _ h)
      · intro y hy
        rcases List.mem_cons.mp hy with rfl | hy2
        · exact le_trans hle (min_le_right s y)
        · exact hall y hy2

/-- A left fold of max starting from a seed lands on the seed or a list
element, is at least the seed, and is an upper bound of the list. -/
lemma foldl_max_spec {α : Type} [LinearOrder α] :
    ∀ (l : List α) (s : α),
      (l.foldl max s = s ∨ l.foldl max s ∈ l) ∧
      s ≤ l.foldl max s ∧ ∀ x ∈ l, x ≤ l.foldl max s := by
  intro l
  induction l with
  | nil =>
      intro s
      exact ⟨Or.inl rfl, le_refl s, by simp⟩
  | cons x l ih =>
      intro s
      rw [List.foldl_cons]
      obtain ⟨hmem, hle, hall⟩ := ih (max s x)
      refine ⟨?_, le_trans (le_max_left s x) hle, ?_⟩
      · rcases hmem with h | h
        · rcases max_cases s x with ⟨hm, _⟩ | ⟨hm, _⟩
          · exact Or.inl (h.trans hm)
          · exact Or.inr (by rw [h, hm]; exact List.mem_cons_self _ _)
        · exact Or.inr (List.mem_cons_of_mem _ h)
      · intro y hy
        rcases List.mem_cons.mp hy with rfl | hy2
        · exact le_trans (le_max_right s y) hle
        · exact hall y hy2

/-- C9: for every non-empty day group, the aggregated day has tempMin the
minimum and tempMax the maximum of the group's temperatures (so
tempMin ≤ tempMax), precipitation the sum of the per-sample rain amounts
with a missing amount counted as 0, and wind and humidity the arithmetic
means of the group's wind speeds and humidities. -/
theorem aggregateDay_spec (k : ℕ) (a : RawItem) (t : List RawItem) :
    (aggregateDay k (a :: t)).tempMin ∈ (a :: t).map RawItem.temp ∧
    (∀ x ∈ (a :: t).map RawItem.temp, (aggregateDay k (a :: t)).tempMin ≤ x) ∧
    (aggregateDay k (a :: t)).tempMax ∈ (a :: t).map RawItem.temp ∧
    (∀ x ∈ (a :: t).map RawItem.temp, x ≤ (aggregateDay k (a :: t)).tempMax) ∧
    (aggregateDay k (a :: t)).tempMin ≤ (aggregateDay k (a :: t)).tempMax ∧
    (aggregateDay k (a :: t)).precipitation =
      ((a :: t).map (fun it => it.rain3h.getD 0)).sum ∧
    (aggregateDay k (a :: t)).wind =
      ((a :: t).map RawItem.windSpeed).sum / (((a :: t).length : ℕ) : ℚ) ∧
    (aggregateDay k (a :: t)).humidity =
      ((a :: t).map RawItem.humidity).sum / (((a :: t).length : ℕ) : ℚ) := by
  obtain ⟨hminmem, hminle, hminall⟩ := foldl_min_spec (t.map RawItem.temp) a.temp
  obtain ⟨hmaxmem, hmaxle, hmaxall⟩ := foldl_max_spec (t.map RawItem.temp) a.temp
  simp only [aggregateDay]
  refine ⟨?_, ?_, ?_, ?_, ?_, ?_, ?_, ?_⟩
  · rw [List.map_cons]
    rcases hminmem with h | h
    · rw [h]
      exact List.mem_cons_self _ _
    · exact List.mem_cons_of_mem _ h
  · intro x hx
    rw [List.map_cons] at hx
    rcases List.mem_cons.mp hx with rfl | hx2
    · exact hminle
    · exact hminall x hx2
  · rw [List.map_cons]
    rcases hmaxmem with h | h
    · rw [h]
      exact List.mem_cons_self _ _
    · exact List.mem_cons_of_mem _ h
  · intro x hx
    rw [List.map_cons] at hx
    rcases List.mem_cons.mp hx with rfl | hx2
    · exact hmaxle
    · exact hmaxall x hx2
  · exact le_trans hminle hmaxle
  · rw [← List.sum_eq_foldl]
  · rw [← List.sum_eq_foldl]
  · rw [← List.sum_eq_foldl]

end GeoTagger
